import Mathlib

/-!
Shallow embedding of the rust-streamed-cache repository (src/src/lib.rs).

The Rust code keeps a mutex-guarded HashMap shared between two background
tasks spawned at construction:
- fetch_in_background awaits api.fetch() once and, on success, runs
  cache.entry(city).or_insert(temperature) for each pair of the result
  (insert only if absent); on Err it only logs.
- subscribe_in_background consumes api.subscribe() element by element;
  on Ok((city, temperature)) it runs cache.insert(city, temperature)
  (unconditional overwrite); on Err it only logs and keeps looping.
get locks the table and returns results.get(key).copied().

The table is embedded as a function from keys to optional values; each
critical section of the Rust code (one lock acquisition) becomes one
atomic operation on the table, and the concurrent execution of the two
tasks becomes an arbitrary interleaving of those operations.
-/

namespace StreamedCache

abbrev City := String
abbrev Temperature := Nat

/-- The mutex-guarded HashMap<City, Temperature>, as a point-lookup map. -/
def Table := City → Option Temperature

/-- HashMap::new(): the empty table. -/
def Table.empty : Table := fun _ => none

/-- StreamCache::get: results.get(key).copied(). -/
def StreamCache.get (t : Table) (key : City) : Option Temperature := t key

/-- HashMap::insert(city, temperature): unconditional overwrite. -/
def insertEntry (t : Table) (city : City) (temp : Temperature) : Table :=
  fun k => if k = city then some temp else t k

/-- cache.entry(city).or_insert(temperature): write only if absent. -/
def entryOrInsert (t : Table) (city : City) (temp : Temperature) : Table :=
  match t city with
  | some _ => t
  | none => insertEntry t city temp

/-- The body of fetch_in_background after api.fetch() resolves: on Ok,
fold entry(...).or_insert(...) over the pairs of the result (all under a
single lock acquisition); on Err, only eprintln, leaving the table as is. -/
def fetch_in_background (t : Table)
    (fetched : Except String (List (City × Temperature))) : Table :=
  match fetched with
  | .ok data => data.foldl (fun cache p => entryOrInsert cache p.1 p.2) t
  | .error _ => t

/-- One iteration of the while-let loop of subscribe_in_background: on
Ok((city, temperature)) insert it, on Err only eprintln. -/
def applyUpdate (t : Table) (u : Except String (City × Temperature)) : Table :=
  match u with
  | .ok (city, temp) => insertEntry t city temp
  | .error _ => t

/-- subscribe_in_background over a finite portion of the stream: apply the
elements one by one, in arrival order. -/
def subscribe_in_background (t : Table)
    (updates : List (Except String (City × Temperature))) : Table :=
  updates.foldl applyUpdate t

/-- One critical section of either background task: the complete
fetch-merge loop under its single lock, or one stream element. -/
inductive Op where
  | fetched (result : Except String (List (City × Temperature)))
  | streamed (u : Except String (City × Temperature))

def applyOp (t : Table) (op : Op) : Table :=
  match op with
  | .fetched r => fetch_in_background t r
  | .streamed u => applyUpdate t u

/-- Run an interleaving of critical sections from the empty table of new(). -/
def runOps (ops : List Op) : Table :=
  ops.foldl applyOp Table.empty

/-- The values an operation writes for a given key. -/
def opWrites (op : Op) (k : City) : List Temperature :=
  match op with
  | .fetched (.ok data) => (data.filter (fun p => p.1 = k)).map Prod.snd
  | .fetched (.error _) => []
  | .streamed (.ok (c, v)) => if c = k then [v] else []
  | .streamed (.error _) => []

/-- All values written for a key across an interleaving. -/
def writesFor (ops : List Op) (k : City) : List Temperature :=
  (ops.map (fun op => opWrites op k)).flatten

/-- One observable action of a background task, in program order. -/
inductive TraceEvent where
  | apiFetch
  | apiSubscribe
  | tableOrInsert (city : City) (temp : Temperature)
  | tableInsert (city : City) (temp : Temperature)
  | logError (msg : String)
deriving DecidableEq

/-- The data-source behavior an Api implementation exhibits to one
StreamCache instance: the single fetch result and the stream contents. -/
structure ApiBehavior where
  fetchResult : Except String (List (City × Temperature))
  subscribeStream : List (Except String (City × Temperature))

/-- Program-order trace of the task spawned by fetch_in_background: one
api.fetch() await, then on Ok one or_insert per pair of the result and
on Err one eprintln. -/
def fetchTaskTrace (api : ApiBehavior) : List TraceEvent :=
  TraceEvent.apiFetch ::
    (match api.fetchResult with
     | .ok data => data.map (fun p => TraceEvent.tableOrInsert p.1 p.2)
     | .error e => [TraceEvent.logError e])

/-- Program-order trace of the task spawned by subscribe_in_background:
one api.subscribe() await, then one insert or one eprintln per element
of the stream. -/
def subscribeTaskTrace (api : ApiBehavior) : List TraceEvent :=
  TraceEvent.apiSubscribe ::
    api.subscribeStream.map (fun u =>
      match u with
      | .ok p => TraceEvent.tableInsert p.1 p.2
      | .error e => TraceEvent.logError e)

/-- update_in_background wires one fetch task and one subscribe task
against the same Api value. -/
def update_in_background (api : ApiBehavior) :
    List TraceEvent × List TraceEvent :=
  (fetchTaskTrace api, subscribeTaskTrace api)

/-- The shared Mutex around the HashMap: poisoned flag plus contents. -/
structure LockedTable where
  poisoned : Bool
  table : Table

/-- A critical section of either writer task: HashMap::insert and
entry().or_insert are total, so the section runs to completion without
panicking and releases the lock unpoisoned. -/
def applyOpLocked (s : LockedTable) (op : Op) : LockedTable :=
  { poisoned := s.poisoned, table := applyOp s.table op }

/-- Reachable lock states: any interleaving applied to the fresh mutex
created by StreamCache::new. -/
def runOpsLocked (ops : List Op) : LockedTable :=
  ops.foldl applyOpLocked { poisoned := false, table := Table.empty }

/-- StreamCache::get through the lock: lock().expect() panics (modelled
as the outer none) when the mutex is poisoned, and otherwise returns the
pure lookup. -/
def getLocked (s : LockedTable) (key : City) : Option (Option Temperature) :=
  if s.poisoned then none else some (StreamCache.get s.table key)

/-- The snapshot result of the reference scenario, a single atomic merge
operation. -/
def scenarioFetchOp : Op :=
  Op.fetched (Except.ok [("Berlin", 29), ("Paris", 31)])

/-- The four stream elements of the reference scenario, in arrival
order. -/
def scenarioStreamOps : List Op :=
  [Op.streamed (Except.ok ("London", 27)),
   Op.streamed (Except.ok ("Paris", 32)),
   Op.streamed (Except.ok ("Riga", 20)),
   Op.streamed (Except.ok ("Riga", 19))]

/-- The reference scenario with the snapshot merge landing atomically
after the first i stream elements (i ranges over 0..4). -/
def scenarioRun (i : Nat) : Table :=
  runOps (scenarioStreamOps.take i ++ [scenarioFetchOp] ++
    scenarioStreamOps.drop i)

/-! ### Helper lemmas -/

theorem insertEntry_self (t : Table) (c : City) (v : Temperature) :
    insertEntry t c v c = some v := by
  simp [insertEntry]

theorem insertEntry_other (t : Table) (c k : City) (v : Temperature)
    (h : k ≠ c) : insertEntry t c v k = t k := by
  simp [insertEntry, h]

/-- entryOrInsert never erases an existing entry for any key. -/
theorem entryOrInsert_preserves_some (t : Table) (c k : City)
    (v w : Temperature) (h : t k = some w) :
    entryOrInsert t c v k = some w := by
  unfold entryOrInsert
  cases hc : t c with
  | some _ => exact h
  | none =>
    show insertEntry t c v k = some w
    by_cases hk : k = c
    · subst hk; rw [h] at hc; exact absurd hc (by simp)
    · rw [insertEntry_other t c k v hk]; exact h

/-- The fetch-merge fold never erases an existing entry. -/
theorem fetchFold_preserves_some (data : List (City × Temperature)) :
    ∀ (t : Table) (k : City) (w : Temperature), t k = some w →
    (data.foldl (fun cache p => entryOrInsert cache p.1 p.2) t) k = some w := by
  induction data with
  | nil => intro t k w h; simpa using h
  | cons p rest ih =>
    intro t k w h
    simp only [List.foldl_cons]
    exact ih _ k w (entryOrInsert_preserves_some t p.1 k p.2 w h)

/-- No single critical section erases an existing entry. -/
theorem applyOp_preserves_some (t : Table) (op : Op) (k : City)
    (w : Temperature) (h : t k = some w) :
    ∃ w2, applyOp t op k = some w2 := by
  cases op with
  | fetched r =>
    cases r with
    | ok data =>
      exact ⟨w, fetchFold_preserves_some data t k w h⟩
    | error e => exact ⟨w, h⟩
  | streamed u =>
    cases u with
    | ok p =>
      obtain ⟨c, v⟩ := p
      by_cases hk : k = c
      · subst hk
        exact ⟨v, by simp [applyOp, applyUpdate, insertEntry_self]⟩
      · refine ⟨w, ?_⟩
        show insertEntry t c v k = some w
        rw [insertEntry_other t c k v hk]
        exact h
    | error e => exact ⟨w, h⟩

/-- entryOrInsert leaves every other key alone. -/
theorem entryOrInsert_other (t : Table) (c k : City) (v : Temperature)
    (h : k ≠ c) : entryOrInsert t c v k = t k := by
  unfold entryOrInsert
  cases hc : t c with
  | some w => rfl
  | none =>
    show insertEntry t c v k = t k
    exact insertEntry_other t c k v h

/-- Any value the fetch-merge fold makes readable was either in the fetch
result for that key or already in the table. -/
theorem fetchFold_get_from_writes (data : List (City × Temperature)) :
    ∀ (t : Table) (k : City) (v : Temperature),
    (data.foldl (fun cache p => entryOrInsert cache p.1 p.2) t) k = some v →
    (∃ p ∈ data, p.1 = k ∧ p.2 = v) ∨ t k = some v := by
  induction data with
  | nil => intro t k v h; right; simpa using h
  | cons q rest ih =>
    intro t k v h
    simp only [List.foldl_cons] at h
    rcases ih _ k v h with hmem | hbase
    · obtain ⟨p, hp, hk, hv⟩ := hmem
      exact Or.inl ⟨p, List.mem_cons_of_mem q hp, hk, hv⟩
    · by_cases hk : k = q.1
      · subst hk
        unfold entryOrInsert at hbase
        rcases hq : t q.1 with _ | w
        · rw [hq] at hbase
          change insertEntry t q.1 q.2 q.1 = some v at hbase
          have hqv : q.2 = v := by
            rw [insertEntry_self] at hbase
            injection hbase
          exact Or.inl ⟨q, List.mem_cons_self q rest, rfl, hqv⟩
        · rw [hq] at hbase
          change t q.1 = some v at hbase
          right
          rw [← hq]
          exact hbase
      · rw [entryOrInsert_other t q.1 k q.2 hk] at hbase
        exact Or.inr hbase

/-- Any value a single critical section makes readable was either written
by that operation for that key or already in the table. -/
theorem applyOp_get_from_writes (t : Table) (op : Op) (k : City)
    (v : Temperature) (h : applyOp t op k = some v) :
    v ∈ opWrites op k ∨ t k = some v := by
  cases op with
  | fetched r =>
    cases r with
    | ok data =>
      rcases fetchFold_get_from_writes data t k v h with hmem | hbase
      · left
        obtain ⟨p, hp, hk, hv⟩ := hmem
        simp only [opWrites, List.mem_map, List.mem_filter]
        exact ⟨p, ⟨hp, by simp [hk]⟩, hv⟩
      · exact Or.inr hbase
    | error e => exact Or.inr h
  | streamed u =>
    cases u with
    | ok p =>
      obtain ⟨c, w⟩ := p
      by_cases hk : k = c
      · subst hk
        have hv : w = v := by
          have := h
          change insertEntry t k w k = some v at this
          rw [insertEntry_self] at this
          injection this
        subst hv
        simp [opWrites]
      · right
        have := h
        change insertEntry t c w k = some v at this
        rw [insertEntry_other t c k w hk] at this
        exact this
    | error e => exact Or.inr h

/-- Any value an interleaving makes readable was written by one of its
operations for that key or was already in the starting table. -/
theorem foldOps_get_from_writes (ops : List Op) :
    ∀ (t : Table) (k : City) (v : Temperature),
    (ops.foldl applyOp t) k = some v →
    v ∈ writesFor ops k ∨ t k = some v := by
  induction ops with
  | nil => intro t k v h; right; simpa using h
  | cons op rest ih =>
    intro t k v h
    simp only [List.foldl_cons] at h
    rcases ih _ k v h with hmem | hbase
    · left
      simp only [writesFor, List.map_cons, List.flatten_cons, List.mem_append]
      right
      simpa [writesFor] using hmem
    · rcases applyOp_get_from_writes t op k v hbase with h1 | h2
      · left
        simp only [writesFor, List.map_cons, List.flatten_cons, List.mem_append]
        exact Or.inl h1
      · exact Or.inr h2

/-- On an absent key the fetch-merge fold installs the unique value the
fetch result carries for it. -/
theorem fetchFold_inserts_absent (data : List (City × Temperature)) :
    ∀ (t : Table) (k : City) (v : Temperature),
    (data.map Prod.fst).Nodup → (k, v) ∈ data → t k = none →
    (data.foldl (fun cache p => entryOrInsert cache p.1 p.2) t) k = some v := by
  induction data with
  | nil => intro t k v _ hmem _; simp at hmem
  | cons q rest ih =>
    intro t k v hnd hmem habs
    obtain ⟨qc, qv⟩ := q
    simp only [List.foldl_cons]
    rcases List.mem_cons.mp hmem with heq | hrest
    · have hk : k = qc := congrArg Prod.fst heq
      have hv : v = qv := congrArg Prod.snd heq
      subst hk
      subst hv
      have hset : entryOrInsert t k v k = some v := by
        unfold entryOrInsert
        rw [habs]
        exact insertEntry_self t k v
      exact fetchFold_preserves_some rest _ k v hset
    · have hkm : k ∈ rest.map Prod.fst := List.mem_map.mpr ⟨(k, v), hrest, rfl⟩
      have hnd2 := hnd
      simp only [List.map_cons, List.nodup_cons] at hnd2
      have hkq : k ≠ qc := by
        intro hcontra
        exact hnd2.1 (hcontra ▸ hkm)
      have habs2 : entryOrInsert t qc qv k = none := by
        rw [entryOrInsert_other t qc k qv hkq]
        exact habs
      exact ih _ k v hnd2.2 hrest habs2

/-- No interleaving of critical sections erases an existing entry. -/
theorem foldOps_preserves_some (ops : List Op) :
    ∀ (t : Table) (k : City) (w : Temperature), t k = some w →
    ∃ w2, (ops.foldl applyOp t) k = some w2 := by
  induction ops with
  | nil => intro t k w h; exact ⟨w, h⟩
  | cons op rest ih =>
    intro t k w h
    obtain ⟨w2, hw2⟩ := applyOp_preserves_some t op k w h
    exact ih (applyOp t op) k w2 hw2

/-! ### Claims -/

/-- C1. Stream precedence: once a snapshot value v1 for key k is in the
table, applying a successful stream element (k, v2) with v1 ≠ v2 makes
get k return v2 and not v1, whatever table state the race produced. -/
theorem stream_precedence (t : Table) (k : City) (v1 v2 : Temperature)
    (hs : t k = some v1) (hne : v1 ≠ v2) :
    StreamCache.get (applyUpdate t (.ok (k, v2))) k = some v2 ∧
    StreamCache.get (applyUpdate t (.ok (k, v2))) k ≠ some v1 := by
  have hget : StreamCache.get (applyUpdate t (.ok (k, v2))) k = some v2 := by
    simp [StreamCache.get, applyUpdate, insertEntry_self]
  refine ⟨hget, ?_⟩
  rw [hget]
  intro hcontra
  exact hne (by injection hcontra with h; exact h.symm)

/-- Witness for C1 at a concrete table and key. -/
theorem stream_precedence_witness :
    StreamCache.get (applyUpdate (insertEntry Table.empty "Paris" 31)
      (.ok ("Paris", 32))) "Paris" = some 32 ∧
    StreamCache.get (applyUpdate (insertEntry Table.empty "Paris" 31)
      (.ok ("Paris", 32))) "Paris" ≠ some 31 :=
  stream_precedence (insertEntry Table.empty "Paris" 31) "Paris" 31 32
    (by simp [insertEntry_self]) (by decide)

/-- C3. Stream last-write-wins: after applying a finite sequence of
successful stream elements for key k in arrival order, get k returns the
value of the last element, for every prior table state. -/
theorem stream_last_write_wins (t : Table) (k : City)
    (vs : List Temperature) (v : Temperature) :
    StreamCache.get (subscribe_in_background t
      ((vs ++ [v]).map (fun w => Except.ok (k, w)))) k = some v := by
  simp only [subscribe_in_background, List.map_append, List.foldl_append,
    List.map_cons, List.map_nil, List.foldl_cons, List.foldl_nil]
  simp [StreamCache.get, applyUpdate, insertEntry_self]

/-- C4. Fetch failure writes nothing: on Err the fetch task leaves the
table exactly as the stream had produced it, so every key readable
before the failure stays readable with the same value, and get itself
reports no error. -/
theorem fetch_failure_no_write (t : Table) (e : String) :
    fetch_in_background t (.error e) = t ∧
    ∀ k, StreamCache.get (fetch_in_background t (.error e)) k =
      StreamCache.get t k := by
  exact ⟨rfl, fun _ => rfl⟩

/-- C5. A failed stream element writes nothing and the loop continues:
processing Err e then the rest of the stream equals processing just the
rest, so every later successful element is still applied. -/
theorem stream_element_failure_skipped (t : Table) (e : String)
    (rest : List (Except String (City × Temperature))) :
    applyUpdate t (.error e) = t ∧
    subscribe_in_background t (Except.error e :: rest) =
      subscribe_in_background t rest := by
  constructor
  · rfl
  · simp [subscribe_in_background, applyUpdate]

/-- C2. Snapshot insert-if-absent: for every pair (k, v) of a successful
fetch result (whose keys are distinct, as in a HashMap), the merge makes
get k return v when k was absent, and leaves the existing value v0 (for
example one written by a stream element) untouched when k was present. -/
theorem snapshot_insert_if_absent (t : Table)
    (data : List (City × Temperature)) (k : City) (v : Temperature)
    (hnd : (data.map Prod.fst).Nodup) (hmem : (k, v) ∈ data) :
    (t k = none →
      StreamCache.get (fetch_in_background t (.ok data)) k = some v) ∧
    ∀ v0, t k = some v0 →
      StreamCache.get (fetch_in_background t (.ok data)) k = some v0 := by
  constructor
  · intro habs
    exact fetchFold_inserts_absent data t k v hnd hmem habs
  · intro v0 h0
    exact fetchFold_preserves_some data t k v0 h0

/-- Witness for C2: the reference snapshot on an empty table installs
Berlin, and on a table already holding Paris=32 it keeps 32. -/
theorem snapshot_insert_if_absent_witness :
    (Table.empty "Berlin" = none →
      StreamCache.get (fetch_in_background Table.empty
        (.ok [("Berlin", 29), ("Paris", 31)])) "Berlin" = some 29) ∧
    ∀ v0, Table.empty "Berlin" = some v0 →
      StreamCache.get (fetch_in_background Table.empty
        (.ok [("Berlin", 29), ("Paris", 31)])) "Berlin" = some v0 :=
  snapshot_insert_if_absent Table.empty [("Berlin", 29), ("Paris", 31)]
    "Berlin" 29 (by decide) (by decide)

/-- C6. No-removal invariant: a populated key survives any single
critical section and any further interleaving of critical sections; no
operation of the core removes an entry, so get never turns a present key
absent. -/
theorem no_removal (t : Table) (k : City) (w : Temperature)
    (h : t k = some w) (op : Op) (ops : List Op) :
    applyOp t op k ≠ none ∧ (ops.foldl applyOp t) k ≠ none := by
  constructor
  · obtain ⟨w2, hw2⟩ := applyOp_preserves_some t op k w h
    rw [hw2]
    simp
  · obtain ⟨w2, hw2⟩ := foldOps_preserves_some ops t k w h
    rw [hw2]
    simp

/-- Witness for C6 at a concrete table, one fetch-failure operation and a
two-operation interleaving. -/
theorem no_removal_witness :
    applyOp (insertEntry Table.empty "Riga" 20)
      (Op.fetched (Except.error "down")) "Riga" ≠ none ∧
    ([Op.streamed (Except.error "bad"),
      Op.streamed (Except.ok ("Riga", 19))].foldl applyOp
        (insertEntry Table.empty "Riga" 20)) "Riga" ≠ none :=
  no_removal (insertEntry Table.empty "Riga" 20) "Riga" 20
    (insertEntry_self Table.empty "Riga" 20)
    (Op.fetched (Except.error "down"))
    [Op.streamed (Except.error "bad"), Op.streamed (Except.ok ("Riga", 19))]

/-- C9. No value out of thin air: under the interleaving model induced by
the table mutex (each lock-protected section is atomic), every value get
returns for a key was written for that key by exactly one completed
insert or or_insert of some operation of the run. -/
theorem get_only_written_values (ops : List Op) (k : City)
    (v : Temperature) (h : StreamCache.get (runOps ops) k = some v) :
    v ∈ writesFor ops k := by
  rcases foldOps_get_from_writes ops Table.empty k v h with hmem | hbase
  · exact hmem
  · exact absurd hbase (by simp [Table.empty])

/-- Witness for C9 on a one-element run. -/
theorem get_only_written_values_witness :
    27 ∈ writesFor [Op.streamed (Except.ok ("London", 27))] "London" :=
  get_only_written_values [Op.streamed (Except.ok ("London", 27))]
    "London" 27 (by decide)

/-- writesFor distributes over concatenation of interleavings. -/
theorem writesFor_append (l1 l2 : List Op) (k : City) :
    writesFor (l1 ++ l2) k = writesFor l1 k ++ writesFor l2 k := by
  simp [writesFor]

/-- A value written within a prefix of a run is written within the run. -/
theorem mem_writesFor_of_take (l : List Op) (i : Nat) (k : City)
    (v : Temperature) (h : v ∈ writesFor (l.take i) k) :
    v ∈ writesFor l k := by
  have := writesFor_append (l.take i) (l.drop i) k
  rw [List.take_append_drop] at this
  rw [this]
  exact List.mem_append_left _ h

/-- A value written within a suffix of a run is written within the run. -/
theorem mem_writesFor_of_drop (l : List Op) (i : Nat) (k : City)
    (v : Temperature) (h : v ∈ writesFor (l.drop i) k) :
    v ∈ writesFor l k := by
  have := writesFor_append (l.take i) (l.drop i) k
  rw [List.take_append_drop] at this
  rw [this]
  exact List.mem_append_right _ h

/-- C7. The snapshot task awaits api.fetch() exactly once per instance
and the stream task never does, so update_in_background performs exactly
one bulk-fetch call over the whole lifecycle. -/
theorem fetch_called_exactly_once (api : ApiBehavior) :
    ((update_in_background api).1.count TraceEvent.apiFetch = 1 ∧
     (update_in_background api).2.count TraceEvent.apiFetch = 0) ∧
    ((update_in_background api).1 ++
      (update_in_background api).2).count TraceEvent.apiFetch = 1 := by
  have h1 : (update_in_background api).1.count TraceEvent.apiFetch = 1 := by
    simp only [update_in_background, fetchTaskTrace, List.count_cons]
    rcases api.fetchResult with e | data
    · simp [List.count_eq_zero]
    · rw [List.count_eq_zero.mpr]
      · simp
      · simp [List.mem_map]
  have h2 : (update_in_background api).2.count TraceEvent.apiFetch = 0 := by
    simp only [update_in_background, subscribeTaskTrace]
    rw [List.count_eq_zero.mpr]
    intro hmem
    rcases List.mem_cons.mp hmem with hc | hm
    · exact TraceEvent.noConfusion hc
    · obtain ⟨u, _, hu⟩ := List.mem_map.mp hm
      rcases u with e | p <;> simp at hu
  refine ⟨⟨h1, h2⟩, ?_⟩
  rw [List.count_append, h1, h2]

/-- C10. Lock acquisition never observes a poisoned mutex: the writer
critical sections are total, so every reachable lock state is
unpoisoned and get returns the pure lookup instead of panicking, for
every key and every interleaving. -/
theorem get_never_panics (ops : List Op) (k : City) :
    (runOpsLocked ops).poisoned = false ∧
    getLocked (runOpsLocked ops) k =
      some (StreamCache.get (runOps ops) k) := by
  have hcomp : ∀ (s : LockedTable),
      (ops.foldl applyOpLocked s).poisoned = s.poisoned ∧
      (ops.foldl applyOpLocked s).table = ops.foldl applyOp s.table := by
    induction ops with
    | nil => intro s; exact ⟨rfl, rfl⟩
    | cons op rest ih =>
      intro s
      simp only [List.foldl_cons]
      exact ih { poisoned := s.poisoned, table := applyOp s.table op }
  obtain ⟨hp, ht⟩ := hcomp { poisoned := false, table := Table.empty }
  refine ⟨hp, ?_⟩
  simp only [getLocked, runOpsLocked, runOps, hp, ht]
  simp

/-- C8. Reference scenario: wherever the delayed snapshot merge lands
among the four stream elements, the final table reads Berlin=29,
London=27, Paris=32, Riga=19, Tallinn absent, and absent for every key
the scenario never mentions. -/
theorem reference_scenario (i : Nat) (hi : i ≤ 4) :
    (StreamCache.get (scenarioRun i) "Berlin" = some 29 ∧
     StreamCache.get (scenarioRun i) "London" = some 27 ∧
     StreamCache.get (scenarioRun i) "Paris" = some 32 ∧
     StreamCache.get (scenarioRun i) "Riga" = some 19 ∧
     StreamCache.get (scenarioRun i) "Tallinn" = none) ∧
    ∀ k, k ∉ (["Berlin", "London", "Paris", "Riga"] : List City) →
      StreamCache.get (scenarioRun i) k = none := by
  constructor
  · interval_cases i <;> exact ⟨rfl, rfl, rfl, rfl, rfl⟩
  · intro k hk
    simp only [List.mem_cons, List.not_mem_nil, or_false, not_or] at hk
    obtain ⟨h1, h2, h3, h4⟩ := hk
    rcases hv : StreamCache.get (scenarioRun i) k with _ | v
    · rfl
    · exfalso
      have hw := foldOps_get_from_writes _ Table.empty k v hv
      rcases hw with hmem | hbase
      · rw [writesFor_append, writesFor_append] at hmem
        rcases List.mem_append.mp hmem with hl | hdrop
        · rcases List.mem_append.mp hl with htake | hfetch
          · have := mem_writesFor_of_take scenarioStreamOps i k v htake
            simp [writesFor, scenarioStreamOps, opWrites,
              Ne.symm h2, Ne.symm h3, Ne.symm h4] at this
          · simp [writesFor, scenarioFetchOp, opWrites,
              Ne.symm h1, Ne.symm h3] at hfetch
        · have := mem_writesFor_of_drop scenarioStreamOps i k v hdrop
          simp [writesFor, scenarioStreamOps, opWrites,
            Ne.symm h2, Ne.symm h3, Ne.symm h4] at this
      · exact Option.noConfusion hbase

/-- Witness for C8 with the merge landing after two stream elements,
read at a snapshot-only key and at a never-mentioned key. -/
theorem reference_scenario_witness :
    StreamCache.get (scenarioRun 2) "Berlin" = some 29 ∧
    StreamCache.get (scenarioRun 2) "Tallinn" = none :=
  ⟨(reference_scenario 2 (by decide)).1.1,
   (reference_scenario 2 (by decide)).2 "Tallinn" (by decide)⟩

end StreamedCache
